import Mathlib

/-!
Verification development for the trade-ai bhavcopy retrieval pipeline
(src/pipeline/runner_bse.py and src/pipeline/runner_nse.py).

Shallow embedding conventions:
  - The filesystem is an association list from path strings to byte lists
    (`FS`).  Paths compare as exact strings, i.e. a case-sensitive (POSIX)
    filesystem, which is the platform the scripts target (shebang
    `#!/usr/bin/python3`).  Directories are not modelled; `mkdir` is a no-op.
  - Bytes are `List Nat`.
  - HTTP is an oracle function supplied as a parameter; for the BSE runner it
    returns a status code and body or a raised exception (`Except`), for the
    NSE runner it returns a response with content type, body and cookies.
  - gzip compression and zip extraction are opaque codec functions supplied
    as parameters (the scripts call library code for these).
  - Python `datetime` dates are represented by their proleptic-Gregorian
    ordinal (a `Nat`, `date.toordinal()`); `ordinalToDate` recovers the
    year/month/day fields, and `pyWeekday o = (o + 6) % 7` is exactly
    Python's `date.fromordinal(o).weekday()` (ordinal 1 is a Monday).
  - While-loops are embedded as fuel-structural recursion where the fuel is
    the exact iteration count bound computed from the loop bounds; the
    source's loop guard is kept inside the body.
-/

/-- Bytes of a file, as a list of byte values. -/
abbrev Bytes := List Nat

/-- The filesystem: a finite map from path strings to file contents,
represented as an association list. -/
abbrev FS := List (String × Bytes)

/-- Delete every entry for path `p`. -/
def fsDel : FS → String → FS
  | [], _ => []
  | (k, v) :: rest, p => if p = k then fsDel rest p else (k, v) :: fsDel rest p

/-- Look up the contents of path `p`. -/
def fsGet : FS → String → Option Bytes
  | [], _ => none
  | (k, v) :: rest, p => if p = k then some v else fsGet rest p

/-- Write contents `b` at path `p` (overwriting any existing entry). -/
def fsSet (fs : FS) (p : String) (b : Bytes) : FS := (p, b) :: fsDel fs p

@[simp] theorem fsGet_fsDel_self (fs : FS) (p : String) : fsGet (fsDel fs p) p = none := by
  induction fs with
  | nil => rfl
  | cons kv rest ih =>
    obtain ⟨k, v⟩ := kv
    by_cases h : p = k
    · subst h
      simp [fsDel, fsGet, ih]
    · simp [fsDel, fsGet, h, ih]

@[simp] theorem fsGet_fsDel_ne (fs : FS) (p q : String) (h : q ≠ p) :
    fsGet (fsDel fs p) q = fsGet fs q := by
  induction fs with
  | nil => rfl
  | cons kv rest ih =>
    obtain ⟨k, v⟩ := kv
    by_cases hk : p = k
    · subst hk
      simp [fsDel, fsGet, h, ih]
    · by_cases hq : q = k <;> simp [fsDel, fsGet, hk, hq, ih]

@[simp] theorem fsGet_fsSet_self (fs : FS) (p : String) (b : Bytes) :
    fsGet (fsSet fs p b) p = some b := by
  simp [fsSet, fsGet]

@[simp] theorem fsGet_fsSet_ne (fs : FS) (p q : String) (b : Bytes) (h : q ≠ p) :
    fsGet (fsSet fs p b) q = fsGet fs q := by
  simp [fsSet, fsGet, h]

/-! ## Dates

Python's `datetime` represents dates in the proleptic Gregorian calendar.
We carry dates either as an ordinal (`Nat`) or as explicit fields. -/

/-- A calendar date as year/month/day fields, as produced by
`datetime.strptime(date_str, "%d%b%Y")`. -/
structure Date where
  year : Nat
  month : Nat
  day : Nat
deriving DecidableEq, Repr

/-- Gregorian leap-year test. -/
def isLeap (y : Nat) : Bool := (y % 4 == 0 && y % 100 != 0) || (y % 400 == 0)

/-- Number of days in a month of a given year. -/
def daysInMonth (y m : Nat) : Nat :=
  match m with
  | 2 => if isLeap y then 29 else 28
  | 4 => 30
  | 6 => 30
  | 9 => 30
  | 11 => 30
  | _ => 31

/-- Number of days in a year. -/
def daysInYear (y : Nat) : Nat := if isLeap y then 366 else 365

/-- Find the year containing a given ordinal: starting from year `y` with
`rem` days remaining, subtract whole years.  The fuel bounds the iteration
count (each step consumes at least 365 days of `rem`). -/
def o2dYear : Nat → Nat → Nat → Nat × Nat
  | 0, y, rem => (y, rem)
  | fuel + 1, y, rem =>
    if daysInYear y < rem then o2dYear fuel (y + 1) (rem - daysInYear y)
    else (y, rem)

/-- Find the month containing a given day-of-year (1-based). -/
def o2dMonth (y : Nat) : Nat → Nat → Nat → Nat × Nat
  | 0, m, rem => (m, rem)
  | fuel + 1, m, rem =>
    if daysInMonth y m < rem then o2dMonth y fuel (m + 1) (rem - daysInMonth y m)
    else (m, rem)

/-- Convert a proleptic-Gregorian ordinal (as in `date.toordinal()`,
ordinal 1 = 0001-01-01) to year/month/day fields. -/
def ordinalToDate (o : Nat) : Date :=
  let (y, remY) := o2dYear o 1 o
  let (m, d) := o2dMonth y remY 1 remY
  ⟨y, m, d⟩

/-- Python's `date.weekday()` for the date with ordinal `o`:
0 = Monday .. 6 = Sunday.  Ordinal 1 (0001-01-01) is a Monday. -/
def pyWeekday (o : Nat) : Nat := (o + 6) % 7

/-- Zero-padded two-digit decimal rendering, as in strftime `%d` / `%m`. -/
def pad2 (n : Nat) : String := if n < 10 then "0" ++ toString n else toString n

/-- Abbreviated month name, as in strftime `%b` (C locale). -/
def monthAbbrev (m : Nat) : String :=
  match m with
  | 1 => "Jan" | 2 => "Feb" | 3 => "Mar" | 4 => "Apr"
  | 5 => "May" | 6 => "Jun" | 7 => "Jul" | 8 => "Aug"
  | 9 => "Sep" | 10 => "Oct" | 11 => "Nov" | _ => "Dec"

/-- strftime `"%d%b%Y"`: e.g. `05Aug2024` (note the mixed-case month). -/
def fmtDDMMMYYYY (dt : Date) : String := pad2 dt.day ++ monthAbbrev dt.month ++ toString dt.year

/-- strftime `"%Y%m%d"`: e.g. `20240805`. -/
def fmtYYYYMMDD (dt : Date) : String := toString dt.year ++ pad2 dt.month ++ pad2 dt.day

/-- Python `str.upper()` (ASCII uppercasing suffices for these names). -/
def pyUpper (s : String) : String := ⟨s.data.map Char.toUpper⟩

/-! ## `Path.with_suffix(".csv.gz")`

`pathlib` computes a name's suffix from the last `.` whose index `i`
satisfies `0 < i < len(name) - 1`; `with_suffix` replaces that suffix (or
appends when there is none).  We embed this on the reversed character list
of the final path component. -/

/-- The characters of the replacement suffix `".csv.gz"`. -/
def csvGzExt : List Char := ['.', 'c', 's', 'v', '.', 'g', 'z']

/-- Split a reversed name at its first `.` (the last `.` of the name):
returns the characters before the dot (reversed suffix body) and after it
(reversed stem), or `none` when there is no dot. -/
def revExtSplit : List Char → Option (List Char × List Char)
  | [] => none
  | c :: cs =>
    if c = '.' then some ([], cs)
    else
      match revExtSplit cs with
      | none => none
      | some (pre, post) => some (c :: pre, post)

theorem revExtSplit_eq (r : List Char) :
    ∀ pre post, revExtSplit r = some (pre, post) → r = pre ++ '.' :: post := by
  induction r with
  | nil => intro pre post h; simp [revExtSplit] at h
  | cons c cs ih =>
    intro pre post h
    rw [revExtSplit] at h
    by_cases hc : c = '.'
    · rw [if_pos hc] at h
      simp at h
      obtain ⟨h1, h2⟩ := h
      subst h1
      subst h2
      simp [hc]
    · rw [if_neg hc] at h
      cases hsub : revExtSplit cs with
      | none => rw [hsub] at h; simp at h
      | some pr =>
        obtain ⟨a, b⟩ := pr
        rw [hsub] at h
        simp at h
        obtain ⟨h1, h2⟩ := h
        subst h1
        subst h2
        have hcs := ih a b hsub
        rw [hcs]
        rfl

theorem revExtSplit_no_dot (r : List Char) :
    ∀ pre post, revExtSplit r = some (pre, post) → ('.' : Char) ∉ pre := by
  induction r with
  | nil => intro pre post h; simp [revExtSplit] at h
  | cons c cs ih =>
    intro pre post h
    rw [revExtSplit] at h
    by_cases hc : c = '.'
    · rw [if_pos hc] at h
      simp at h
      obtain ⟨h1, _⟩ := h
      subst h1
      simp
    · rw [if_neg hc] at h
      cases hsub : revExtSplit cs with
      | none => rw [hsub] at h; simp at h
      | some pr =>
        obtain ⟨a, b⟩ := pr
        rw [hsub] at h
        simp at h
        obtain ⟨h1, h2⟩ := h
        subst h1
        intro hmem
        cases hmem with
        | head => exact hc rfl
        | tail _ hmem2 => exact ih a b hsub hmem2

/-- `pathlib` stem of a file name (the name with its suffix removed, where a
leading or trailing dot does not start a suffix). -/
def pyStem (name : List Char) : List Char :=
  match revExtSplit name.reverse with
  | none => name
  | some (pre, post) => if pre = [] ∨ post = [] then name else post.reverse

/-- Predicate used to locate the final path component. -/
def notSlash (c : Char) : Bool := c != '/'

/-- `Path(p).with_suffix(".csv.gz")`: replace the suffix of the final path
component (everything after the last `/`) by `.csv.gz`. -/
def withSuffixCsvGz (p : String) : String :=
  ⟨(p.data.reverse.dropWhile notSlash).reverse ++
    (pyStem (p.data.reverse.takeWhile notSlash).reverse ++ csvGzExt)⟩

theorem pyStem_append_ext_ne (name : List Char) :
    pyStem name ++ csvGzExt ≠ name := by
  intro h
  unfold pyStem at h
  cases hsplit : revExtSplit name.reverse with
  | none =>
    simp only [hsplit] at h
    have hlen := congrArg List.length h
    rw [List.length_append] at hlen
    have h7 : csvGzExt.length = 7 := rfl
    rw [h7] at hlen
    omega
  | some pr =>
    obtain ⟨pre, post⟩ := pr
    simp only [hsplit] at h
    by_cases hdeg : pre = [] ∨ post = []
    · rw [if_pos hdeg] at h
      have hlen := congrArg List.length h
      rw [List.length_append] at hlen
      have h7 : csvGzExt.length = 7 := rfl
      rw [h7] at hlen
      omega
    · rw [if_neg hdeg] at h
      have hname : name = post.reverse ++ '.' :: pre.reverse := by
        have h1 := revExtSplit_eq name.reverse pre post hsplit
        have h2 := congrArg List.reverse h1
        simpa using h2
      rw [hname] at h
      have h3 : csvGzExt = '.' :: pre.reverse := List.append_cancel_left h
      have h4 : ('.' :: ['c', 's', 'v', '.', 'g', 'z'] : List Char) = '.' :: pre.reverse := h3
      injection h4 with h4a h4b
      have h5 : ('.' : Char) ∈ pre := by
        have h6 : ('.' : Char) ∈ pre.reverse := by
          rw [← h4b]
          decide
        simpa using h6
      exact revExtSplit_no_dot name.reverse pre post hsplit h5

theorem withSuffixCsvGz_ne (p : String) : withSuffixCsvGz p ≠ p := by
  intro h
  have hdata : (p.data.reverse.dropWhile notSlash).reverse ++
      (pyStem (p.data.reverse.takeWhile notSlash).reverse ++ csvGzExt) = p.data :=
    congrArg String.data h
  have hsplit : p.data.reverse.takeWhile notSlash ++ p.data.reverse.dropWhile notSlash =
      p.data.reverse := List.takeWhile_append_dropWhile notSlash p.data.reverse
  have hp : p.data = (p.data.reverse.dropWhile notSlash).reverse ++
      (p.data.reverse.takeWhile notSlash).reverse := by
    have e1 : p.data.reverse.reverse = p.data := List.reverse_reverse p.data
    have e2 := congrArg List.reverse hsplit
    rw [List.reverse_append] at e2
    rw [e1] at e2
    exact e2.symm
  have hcomb := hdata.trans hp
  have h2 := List.append_cancel_left hcomb
  exact pyStem_append_ext_ne _ h2

/-! ## `compress_file` (identical in runner_bse.py and runner_nse.py)

Python returns `True` on success and falls off the end (returning `None`)
after catching `FileNotFoundError` or any other exception; we model the
return value as `Option Bool` (`some true` = Python `True`, `none` =
Python `None`).  The gzip library is the opaque codec `comp`. -/

/-- Model of `compress_file`: read the input, write its compressed bytes to
the `.csv.gz` sibling, delete the input, and return `True`; when the input
is missing, catch `FileNotFoundError`, log, and fall through (`None`). -/
def compress_file (comp : Bytes → Bytes) (input_file_path : String) (fs : FS) :
    Option Bool × FS :=
  let gz_path := withSuffixCsvGz input_file_path
  match fsGet fs input_file_path with
  | none => (none, fs)
  | some b =>
    let fs1 := fsSet fs gz_path (comp b)
    let fs2 := fsDel fs1 input_file_path
    (some true, fs2)

/-! ## Range-driver bookkeeping

Both range drivers (`download_bhavcopy_range` in each runner) are the same
loop.  Besides the Python return value (`files.map Prod.snd`), the model
records the observable per-iteration events: which dates invoked the
per-date downloader (`calls`), which dates logged a weekend skip (`skips`),
and every iterated date (`visited`).  Each `files` entry is tagged with the
ordinal of the date that produced it. -/

structure RangeResult where
  files : List (Nat × String)
  calls : List Nat
  skips : List Nat
  visited : List Nat
  fs : FS
deriving DecidableEq, Repr

/-! ## runner_bse.py -/

namespace Bse

/-- The module constant `BASE_URL` of runner_bse.py. -/
def BASE_URL : String := "https://www.bseindia.com/download/BhavCopy"

/-- The HTTP oracle for `requests.get`: either a raised exception (timeout,
connection error) or a status code and response body. -/
abbrev Http := String → Except String (Nat × Bytes)

/-- Model of runner_bse.py `download_file`: on status 200 write the body to
`dest_path` and return it; on any other status raise, and together with any
raised exception catch it, log, and return `None`. -/
def download_file (http : Http) (url : String) (dest_path : String) (fs : FS) :
    Option String × FS :=
  match http url with
  | .ok (status, content) =>
    if status = 200 then (some dest_path, fsSet fs dest_path content)
    else (none, fs)
  | .error _ => (none, fs)

/-- The download URL built for a date (f-string with `%Y%m%d`). -/
def buildUrl (dt : Date) : String :=
  BASE_URL ++ "/Equity/BhavCopy_BSE_CM_0_0_0_" ++ fmtYYYYMMDD dt ++ "_F_0000.CSV"

/-- Model of `download_bse_equity_bhavcopy`: download to
`<outdir>/<ddMmmyyyy>.csv` (strftime `%d%b%Y`, mixed case), then compress
`<outdir>/<DDMMMYYYY>.csv` (the upper-cased name; the source's `# Rename
file` comment is not followed by any rename call), ignoring both results,
and return the upper-cased path.  `mkdir` is a no-op in the model and the
date string has already been parsed to `dt`. -/
def download_bse_equity_bhavcopy (http : Http) (comp : Bytes → Bytes) (dt : Date)
    (output_dir : String) (fs : FS) : String × FS :=
  let url := buildUrl dt
  let file_path := output_dir ++ "/" ++ fmtDDMMMYYYY dt ++ ".csv"
  let r1 := download_file http url file_path fs
  let final_filename := pyUpper (fmtDDMMMYYYY dt) ++ ".csv"
  let final_path := output_dir ++ "/" ++ final_filename
  let r2 := compress_file comp final_path r1.2
  (final_path, r2.2)

/-- The loop body of `download_bhavcopy_range`, with fuel equal to the
number of remaining calendar days (the caller passes `endO + 1 - startO`);
the source's guard `current <= end` is kept.  Dates are carried as
proleptic-Gregorian ordinals, `current += timedelta(days=1)` is `cur + 1`.
The driver's hand-off to the per-date function goes through
`date_str = current.strftime("%d%b%Y").upper()` followed by `strptime`
inside the callee; for dates whose year renders as exactly four digits
(1000–9999, the domain of every concrete date used in this development)
that round trip is the identity and is elided here — outside it (glibc's
`%Y` is unpadded while `strptime`'s `%Y` wants four digits) the callee
would raise `ValueError` at its first line, a case this model does not
cover.  Within that domain the per-date call never raises (all its
failures are swallowed internally), so the `try/except` around it has no
effect to model. -/
def rangeLoop (http : Http) (comp : Bytes → Bytes) (output_dir : String) (endO : Nat) :
    Nat → Nat → FS → RangeResult
  | 0, _, fs => ⟨[], [], [], [], fs⟩
  | fuel + 1, cur, fs =>
    if cur ≤ endO then
      if pyWeekday cur < 5 then
        let r1 := download_bse_equity_bhavcopy http comp (ordinalToDate cur) output_dir fs
        let r := rangeLoop http comp output_dir endO fuel (cur + 1) r1.2
        ⟨(cur, r1.1) :: r.files, cur :: r.calls, r.skips, cur :: r.visited, r.fs⟩
      else
        let r := rangeLoop http comp output_dir endO fuel (cur + 1) fs
        ⟨r.files, r.calls, cur :: r.skips, cur :: r.visited, r.fs⟩
    else ⟨[], [], [], [], fs⟩

/-- Model of runner_bse.py `download_bhavcopy_range` over parsed date
ordinals (Python parses the `ddMMMyyyy` bounds first). -/
def download_bhavcopy_range (http : Http) (comp : Bytes → Bytes)
    (startO endO : Nat) (output_dir : String) (fs : FS) : RangeResult :=
  rangeLoop http comp output_dir endO (endO + 1 - startO) startO fs

end Bse

/-! ## runner_nse.py -/

/-- Python's `pat in s` substring test, on character lists. -/
def hasSubstr (pat : List Char) : List Char → Bool
  | [] => pat.isEmpty
  | c :: t => pat.isPrefixOf (c :: t) || hasSubstr pat t

/-- Test whether a `Content-Type` header value contains `"text/html"`. -/
def containsTextHtml (ct : String) : Bool := hasSubstr "text/html".data ct.data

namespace Nse

/-- The module constant `BASE_URL` of runner_nse.py. -/
def BASE_URL : String := "https://nsearchives.nseindia.com"

/-- The module constant `cookies_dir` of runner_nse.py. -/
def cookies_dir : String := "../data"

/-- The fixed cookie persistence path `<cookies_dir>/nse_cookies.pkl`. -/
def cookiePath : String := cookies_dir ++ "/nse_cookies.pkl"

/-- An HTTP response as seen by `session.get`: `Content-Type` header, body
bytes, and the cookies it carries. -/
structure Resp where
  contentType : String
  body : Bytes
  respCookies : Bytes
deriving DecidableEq, Repr

/-- The HTTP oracle for `session.get`: either a raised exception or a
response.  (Cookie state does not feed back into the oracle; responses are
an environment parameter.) -/
abbrev Net := String → Except String Resp

/-- A `requests.Session`'s cookie jar, as an opaque byte blob. -/
structure Session where
  cookies : Bytes
deriving DecidableEq, Repr

/-- `session.cookies.update(c)`: merge cookies `c` into the jar. -/
def sessionUpdate (s : Session) (c : Bytes) : Session := ⟨s.cookies ++ c⟩

/-- Model of `get_or_set_cookies`: if the cookie file exists, deserialize it
and load into the session with no network call; otherwise GET the NSE
homepage (a raised network error propagates), persist the response cookies
to the file, and load them into the session.  The returned `List String` is
the trace of URLs fetched by the network layer (pickle serialisation is the
identity on the opaque blob). -/
def get_or_set_cookies (net : Net) (session : Session) (cookie_path : String) (fs : FS) :
    Except String (Session × FS × List String) :=
  match fsGet fs cookie_path with
  | some blob => .ok (sessionUpdate session blob, fs, [])
  | none =>
    match net "https://www.nseindia.com" with
    | .error e => .error e
    | .ok resp =>
      let fs1 := fsSet fs cookie_path resp.respCookies
      .ok (sessionUpdate session resp.respCookies, fs1, ["https://www.nseindia.com"])

/-- Model of runner_nse.py `download_file`: GET the URL (a raised network
error propagates); if the response `Content-Type` contains `"text/html"`,
raise `RuntimeError` before writing anything; otherwise stream the body to
`dest_path`. -/
def download_file (net : Net) (url : String) (dest_path : String) (fs : FS) :
    Except String FS :=
  match net url with
  | .error e => .error e
  | .ok resp =>
    if containsTextHtml resp.contentType then
      .error ("NSE file not available or invalid URL: " ++ url)
    else
      .ok (fsSet fs dest_path resp.body)

/-- Model of `extract_file`: open the zip (`unzip` is the opaque archive
codec; a malformed or empty archive raises before any effect), extract the
first entry into `extract_to`, delete the zip, and return the extracted
path. -/
def extract_file (unzip : Bytes → List (String × Bytes)) (file : String)
    (extract_to : String) (fs : FS) : Except String (String × FS) :=
  match fsGet fs file with
  | none => .error "BadZipFile: no such file"
  | some zbytes =>
    match unzip zbytes with
    | [] => .error "IndexError: namelist is empty"
    | (name, content) :: _ =>
      let extracted_path := extract_to ++ "/" ++ name
      let fs1 := fsSet fs extracted_path content
      let fs2 := fsDel fs1 file
      .ok (extracted_path, fs2)

/-- The zip file name built for a date. -/
def zipFilename (dt : Date) : String :=
  "BhavCopy_NSE_CM_0_0_0_" ++ fmtYYYYMMDD dt ++ "_F_0000.csv.zip"

/-- The canonical final (uncompressed) CSV path for a date. -/
def finalPath (output_dir : String) (dt : Date) : String :=
  output_dir ++ "/" ++ fmtYYYYMMDD dt ++ ".csv"

/-- Model of `download_nse_equity_bhavcopy`: bootstrap cookies, download
the zip (raising on HTML responses), extract it, rename the extracted file
to `<outdir>/<YYYYMMDD>.csv`, and gzip-compress that (swallowing compress
failures).  Any raised error propagates to the caller together with the
filesystem as mutated so far. -/
def download_nse_equity_bhavcopy (net : Net) (unzip : Bytes → List (String × Bytes))
    (comp : Bytes → Bytes) (dt : Date) (output_dir : String) (fs : FS) :
    Except String String × FS :=
  let session : Session := ⟨[]⟩
  match get_or_set_cookies net session cookiePath fs with
  | .error e => (.error e, fs)
  | .ok (_, fs1, _) =>
    let zip_url := BASE_URL ++ "/content/cm/" ++ zipFilename dt
    let zip_path := output_dir ++ "/" ++ zipFilename dt
    match download_file net zip_url zip_path fs1 with
    | .error e => (.error e, fs1)
    | .ok fs2 =>
      match extract_file unzip zip_path output_dir fs2 with
      | .error e => (.error e, fs2)
      | .ok (extracted, fs3) =>
        let final_path := finalPath output_dir dt
        match fsGet fs3 extracted with
        | none => (.error "FileNotFoundError: rename source missing", fs3)
        | some b =>
          let fs4 := fsSet (fsDel fs3 extracted) final_path b
          let r := compress_file comp final_path fs4
          (.ok final_path, r.2)

/-- The loop body of runner_nse.py `download_bhavcopy_range`: same driver
as the BSE one (including the strftime/strptime hand-off, elided as the
identity on four-digit-year dates), but the per-date call can raise, in
which case the date is logged and skipped (`catch`-log-continue) while its
partial filesystem effects persist. -/
def rangeLoop (net : Net) (unzip : Bytes → List (String × Bytes)) (comp : Bytes → Bytes)
    (output_dir : String) (endO : Nat) : Nat → Nat → FS → RangeResult
  | 0, _, fs => ⟨[], [], [], [], fs⟩
  | fuel + 1, cur, fs =>
    if cur ≤ endO then
      if pyWeekday cur < 5 then
        let r1 := download_nse_equity_bhavcopy net unzip comp (ordinalToDate cur) output_dir fs
        let r := rangeLoop net unzip comp output_dir endO fuel (cur + 1) r1.2
        match r1.1 with
        | .ok p => ⟨(cur, p) :: r.files, cur :: r.calls, r.skips, cur :: r.visited, r.fs⟩
        | .error _ => ⟨r.files, cur :: r.calls, r.skips, cur :: r.visited, r.fs⟩
      else
        let r := rangeLoop net unzip comp output_dir endO fuel (cur + 1) fs
        ⟨r.files, r.calls, cur :: r.skips, cur :: r.visited, r.fs⟩
    else ⟨[], [], [], [], fs⟩

/-- Model of runner_nse.py `download_bhavcopy_range` over parsed date
ordinals. -/
def download_bhavcopy_range (net : Net) (unzip : Bytes → List (String × Bytes))
    (comp : Bytes → Bytes) (startO endO : Nat) (output_dir : String) (fs : FS) : RangeResult :=
  rangeLoop net unzip comp output_dir endO (endO + 1 - startO) startO fs

end Nse

/-! ## Range-driver characterisation lemmas -/

/-- Boolean weekday test used by both range drivers (`weekday() < 5`). -/
def isWeekdayB (o : Nat) : Bool := decide (pyWeekday o < 5)

/-- Boolean success test on a raised-or-returned result. -/
def okB {ε α : Type} : Except ε α → Bool
  | .ok _ => true
  | .error _ => false

theorem bse_rangeLoop_spec (http : Bse.Http) (comp : Bytes → Bytes) (output_dir : String)
    (endO : Nat) :
    ∀ fuel cur fs, endO + 1 - cur = fuel →
      (Bse.rangeLoop http comp output_dir endO fuel cur fs).visited = List.range' cur fuel ∧
      (Bse.rangeLoop http comp output_dir endO fuel cur fs).calls =
        (List.range' cur fuel).filter isWeekdayB ∧
      (Bse.rangeLoop http comp output_dir endO fuel cur fs).skips =
        (List.range' cur fuel).filter (fun o => ! isWeekdayB o) ∧
      (Bse.rangeLoop http comp output_dir endO fuel cur fs).files.map Prod.fst =
        (List.range' cur fuel).filter isWeekdayB := by
  intro fuel
  induction fuel with
  | zero =>
    intro cur fs _
    simp [Bse.rangeLoop]
  | succ n ih =>
    intro cur fs h
    have hcur : cur ≤ endO := by omega
    have hnext : endO + 1 - (cur + 1) = n := by omega
    by_cases hw : pyWeekday cur < 5
    · obtain ⟨h1, h2, h3, h4⟩ :=
        ih (cur + 1) (Bse.download_bse_equity_bhavcopy http comp (ordinalToDate cur)
          output_dir fs).2 hnext
      simp only [Bse.rangeLoop, if_pos hcur, if_pos hw]
      rw [List.range'_succ]
      simp [List.filter_cons, isWeekdayB, hw, h1, h2, h3, h4]
    · obtain ⟨h1, h2, h3, h4⟩ := ih (cur + 1) fs hnext
      simp only [Bse.rangeLoop, if_pos hcur, if_neg hw]
      rw [List.range'_succ]
      simp [List.filter_cons, isWeekdayB, hw, h1, h2, h3, h4]

theorem nse_rangeLoop_spec (net : Nse.Net) (unzip : Bytes → List (String × Bytes))
    (comp : Bytes → Bytes) (output_dir : String) (endO : Nat) :
    ∀ fuel cur fs, endO + 1 - cur = fuel →
      (Nse.rangeLoop net unzip comp output_dir endO fuel cur fs).visited =
        List.range' cur fuel ∧
      (Nse.rangeLoop net unzip comp output_dir endO fuel cur fs).calls =
        (List.range' cur fuel).filter isWeekdayB ∧
      (Nse.rangeLoop net unzip comp output_dir endO fuel cur fs).skips =
        (List.range' cur fuel).filter (fun o => ! isWeekdayB o) := by
  intro fuel
  induction fuel with
  | zero =>
    intro cur fs _
    simp [Nse.rangeLoop]
  | succ n ih =>
    intro cur fs h
    have hcur : cur ≤ endO := by omega
    have hnext : endO + 1 - (cur + 1) = n := by omega
    by_cases hw : pyWeekday cur < 5
    · obtain ⟨h1, h2, h3⟩ :=
        ih (cur + 1) (Nse.download_nse_equity_bhavcopy net unzip comp (ordinalToDate cur)
          output_dir fs).2 hnext
      simp only [Nse.rangeLoop, if_pos hcur, if_pos hw]
      rw [List.range'_succ]
      cases hres : (Nse.download_nse_equity_bhavcopy net unzip comp (ordinalToDate cur)
          output_dir fs).1 with
      | ok p => simp [List.filter_cons, isWeekdayB, hw, h1, h2, h3]
      | error e => simp [List.filter_cons, isWeekdayB, hw, h1, h2, h3]
    · obtain ⟨h1, h2, h3⟩ := ih (cur + 1) fs hnext
      simp only [Nse.rangeLoop, if_pos hcur, if_neg hw]
      rw [List.range'_succ]
      simp [List.filter_cons, isWeekdayB, hw, h1, h2, h3]

theorem nse_rangeLoop_files_sub_calls (net : Nse.Net) (unzip : Bytes → List (String × Bytes))
    (comp : Bytes → Bytes) (output_dir : String) (endO : Nat) :
    ∀ fuel cur fs o,
      o ∈ (Nse.rangeLoop net unzip comp output_dir endO fuel cur fs).files.map Prod.fst →
      o ∈ (Nse.rangeLoop net unzip comp output_dir endO fuel cur fs).calls := by
  intro fuel
  induction fuel with
  | zero =>
    intro cur fs o h
    simp [Nse.rangeLoop] at h
  | succ n ih =>
    intro cur fs o h
    by_cases hcur : cur ≤ endO
    · by_cases hw : pyWeekday cur < 5
      · simp only [Nse.rangeLoop, if_pos hcur, if_pos hw] at h ⊢
        revert h
        cases hres : (Nse.download_nse_equity_bhavcopy net unzip comp (ordinalToDate cur)
            output_dir fs).1 with
        | ok p =>
          intro h
          cases h with
          | head => exact List.Mem.head _
          | tail _ h2 => exact List.Mem.tail _ (ih (cur + 1) _ o h2)
        | error e =>
          intro h
          exact List.Mem.tail _ (ih (cur + 1) _ o h)
      · simp only [Nse.rangeLoop, if_pos hcur, if_neg hw] at h ⊢
        exact ih (cur + 1) fs o h
    · simp [Nse.rangeLoop, if_neg hcur] at h

theorem withSuffixCsvGz_ne_cookiePath (p : String) : withSuffixCsvGz p ≠ Nse.cookiePath := by
  intro h
  have hdata : (p.data.reverse.dropWhile notSlash).reverse ++
      (pyStem (p.data.reverse.takeWhile notSlash).reverse ++ csvGzExt) =
      Nse.cookiePath.data := congrArg String.data h
  have hlast := congrArg List.getLast? hdata
  rw [List.getLast?_append, List.getLast?_append] at hlast
  have hz : csvGzExt.getLast? = some 'z' := rfl
  rw [hz] at hlast
  have hl : Nse.cookiePath.data.getLast? = some 'l' := by decide
  rw [hl] at hlast
  simp [Option.or] at hlast

theorem nse_rangeLoop_files_eq_calls (net : Nse.Net) (unzip : Bytes → List (String × Bytes))
    (comp : Bytes → Bytes) (output_dir : String) (endO : Nat)
    (hsucc : ∀ cur fs, cur ≤ endO →
      okB (Nse.download_nse_equity_bhavcopy net unzip comp (ordinalToDate cur)
        output_dir fs).1 = true) :
    ∀ fuel cur fs,
      (Nse.rangeLoop net unzip comp output_dir endO fuel cur fs).files.map Prod.fst =
        (Nse.rangeLoop net unzip comp output_dir endO fuel cur fs).calls := by
  intro fuel
  induction fuel with
  | zero =>
    intro cur fs
    simp [Nse.rangeLoop]
  | succ n ih =>
    intro cur fs
    by_cases hcur : cur ≤ endO
    · by_cases hw : pyWeekday cur < 5
      · simp only [Nse.rangeLoop, if_pos hcur, if_pos hw]
        cases hres : (Nse.download_nse_equity_bhavcopy net unzip comp (ordinalToDate cur)
            output_dir fs).1 with
        | ok p => simp [ih]
        | error e =>
          have := hsucc cur fs hcur
          rw [hres] at this
          simp [okB] at this
      · simp only [Nse.rangeLoop, if_pos hcur, if_neg hw]
        exact ih (cur + 1) fs
    · simp [Nse.rangeLoop, if_neg hcur]

/-! ## Claim theorems -/

/-- HTTP oracle for the BSE runner in which every GET succeeds with status
200 and body `[1, 2, 3]`. -/
def httpOk : Bse.Http := fun _ => .ok (200, [1, 2, 3])

/-- HTTP oracle for the BSE runner in which every GET raises (network
down). -/
def httpDown : Bse.Http := fun _ => .error "ConnectionError"

/-- C4 (code_bug evidence): `compress_file`'s docstring says `:return
bool`, and the claim says it returns a boolean indicating success; but on a
missing input file the Python function catches `FileNotFoundError`, logs,
and falls off the end, returning `None` — modelled as `none`, not `some
false` — while leaving the filesystem unchanged (the failure is swallowed,
not propagated).  On an existing input it does return the boolean `True`. -/
theorem c4_compress_file_none_on_failure :
    (compress_file id "missing.csv" []).1 = none ∧
    (compress_file id "missing.csv" []).2 = [] ∧
    (compress_file id "data.csv" [("data.csv", [1, 2])]).1 = some true := by
  decide

/-- C6: for any gzip codec pair (`comp`, `decomp`) that round-trips, and
any file `p` present with bytes `b`, after a successful `compress_file` run
the input file no longer exists, the `.csv.gz` sibling exists, and
decompressing its contents yields exactly the original bytes. -/
theorem c6_compress_roundtrip (comp decomp : Bytes → Bytes)
    (hround : ∀ b, decomp (comp b) = b) (p : String) (b : Bytes) (fs : FS)
    (hp : fsGet fs p = some b)
    (hsucc : (compress_file comp p fs).1 = some true) :
    fsGet (compress_file comp p fs).2 p = none ∧
    ∃ c, fsGet (compress_file comp p fs).2 (withSuffixCsvGz p) = some c ∧ decomp c = b := by
  unfold compress_file
  rw [hp]
  refine ⟨by simp, comp b, ?_, hround b⟩
  rw [fsGet_fsDel_ne _ _ _ (withSuffixCsvGz_ne p), fsGet_fsSet_self]

/-- Witness for C6 at a concrete file and the identity codec. -/
theorem c6_compress_roundtrip_witness :
    fsGet (compress_file id "data.csv" [("data.csv", [7, 8])]).2 "data.csv" = none ∧
    ∃ c, fsGet (compress_file id "data.csv" [("data.csv", [7, 8])]).2
      (withSuffixCsvGz "data.csv") = some c ∧ id c = [7, 8] :=
  c6_compress_roundtrip id id (fun _ => rfl) "data.csv" [7, 8] [("data.csv", [7, 8])]
    (by decide) (by decide)

/-- C1 (code_bug evidence): for the valid weekday date 05AUG2024 with a
succeeding download, `download_bse_equity_bhavcopy` downloads to
`out/05Aug2024.csv` (strftime `%d%b%Y` is mixed-case) but then — the `#
Rename file` comment is followed by no rename — compresses the nonexistent
upper-case name `out/05AUG2024.csv`.  On a case-sensitive filesystem the
result is: no file at the claimed `out/05AUG2024.csv.gz`, and the
uncompressed intermediate `out/05Aug2024.csv` is NOT removed. -/
theorem c1_bse_pipeline_leaves_no_gz :
    fsGet (Bse.download_bse_equity_bhavcopy httpOk id ⟨2024, 8, 5⟩ "out" []).2
      "out/05AUG2024.csv.gz" = none ∧
    fsGet (Bse.download_bse_equity_bhavcopy httpOk id ⟨2024, 8, 5⟩ "out" []).2
      "out/05Aug2024.csv" = some [1, 2, 3] ∧
    (Bse.download_bse_equity_bhavcopy httpOk id ⟨2024, 8, 5⟩ "out" []).1 =
      "out/05AUG2024.csv" := by
  decide

/-- C9 (code_bug evidence): after the (nominally successful) per-date BSE
run for 05AUG2024, the raw downloaded file `out/05Aug2024.csv` is the ONLY
persisted state — an uncompressed intermediate remains on disk and no
`.csv.gz` exists, contradicting the invariant that intermediates are always
cleaned up or renamed away. -/
theorem c9_bse_pipeline_intermediate_persists :
    (Bse.download_bse_equity_bhavcopy httpOk id ⟨2024, 8, 5⟩ "out" []).2 =
      [("out/05Aug2024.csv", [1, 2, 3])] := by
  decide

set_option maxRecDepth 40000 in
/-- C2 (code_bug evidence): running the BSE range driver over the single
Monday 05AUG2024 (proleptic-Gregorian ordinal 739103; a four-digit-year
date, so the driver's strftime/strptime hand-off is the identity and the
per-date function is really reached) with every download raising a
connection error still returns a one-element list containing that date's
final path, even though nothing was downloaded (the final filesystem is
empty).  The per-date BSE pipeline swallows the download failure — its
`download_file` catches the exception and returns `None`, which is
ignored — and returns the path anyway, so failed dates are NOT omitted
from the list. -/
theorem c2_bse_range_includes_failed_date :
    ordinalToDate 739103 = ⟨2024, 8, 5⟩ ∧
    pyWeekday 739103 = 0 ∧
    (Bse.download_bhavcopy_range httpDown id 739103 739103 "out" []).files.map Prod.snd =
      ["out/05AUG2024.csv"] ∧
    (Bse.download_bhavcopy_range httpDown id 739103 739103 "out" []).fs = [] := by
  decide

/-- C3: whenever the response to any URL has a `Content-Type` containing
`"text/html"`, the NSE `download_file` raises the distinct `RuntimeError`
(its message names the unavailable URL) and returns no new filesystem, so
no bytes are written; and the per-date NSE pipeline, when the zip download
receives such a response, propagates an error and leaves no file at the
canonical compressed output path `<outdir>/<YYYYMMDD>.csv.gz` (assuming
none was there before). -/
theorem c3_html_response_writes_nothing (net : Nse.Net) (unzip : Bytes → List (String × Bytes))
    (comp : Bytes → Bytes) (dt : Date) (output_dir : String) (fs : FS) (resp : Nse.Resp)
    (hzip : net (Nse.BASE_URL ++ "/content/cm/" ++ Nse.zipFilename dt) = .ok resp)
    (hhtml : containsTextHtml resp.contentType = true)
    (hgz : fsGet fs (withSuffixCsvGz (Nse.finalPath output_dir dt)) = none) :
    (∀ url dest fs2 r, net url = .ok r → containsTextHtml r.contentType = true →
      Nse.download_file net url dest fs2 =
        .error ("NSE file not available or invalid URL: " ++ url)) ∧
    okB (Nse.download_nse_equity_bhavcopy net unzip comp dt output_dir fs).1 = false ∧
    fsGet (Nse.download_nse_equity_bhavcopy net unzip comp dt output_dir fs).2
      (withSuffixCsvGz (Nse.finalPath output_dir dt)) = none := by
  have hdl : ∀ url dest fs2 r, net url = .ok r → containsTextHtml r.contentType = true →
      Nse.download_file net url dest fs2 =
        .error ("NSE file not available or invalid URL: " ++ url) := by
    intro url dest fs2 r hr hct
    unfold Nse.download_file
    simp only [hr]
    rw [if_pos hct]
  refine ⟨hdl, ?_⟩
  unfold Nse.download_nse_equity_bhavcopy Nse.get_or_set_cookies
  cases hc : fsGet fs Nse.cookiePath with
  | some blob =>
    simp only [hc]
    rw [hdl _ _ _ _ hzip hhtml]
    exact ⟨rfl, hgz⟩
  | none =>
    simp only [hc]
    cases hhome : net "https://www.nseindia.com" with
    | error e => exact ⟨rfl, hgz⟩
    | ok r =>
      simp only []
      rw [hdl _ _ _ _ hzip hhtml]
      refine ⟨rfl, ?_⟩
      rw [fsGet_fsSet_ne _ _ _ _ (withSuffixCsvGz_ne_cookiePath _)]
      exact hgz

/-- Witness for C3: a concrete network returning an HTML error page for
the zip URL (and a normal page for the cookie bootstrap), an empty
filesystem, and the date 05AUG2024. -/
theorem c3_html_response_writes_nothing_witness :
    (∀ url dest fs2 r,
      (fun _ => .ok ⟨"text/html", [0], [9]⟩ : Nse.Net) url = .ok r →
      containsTextHtml r.contentType = true →
      Nse.download_file (fun _ => .ok ⟨"text/html", [0], [9]⟩) url dest fs2 =
        .error ("NSE file not available or invalid URL: " ++ url)) ∧
    okB (Nse.download_nse_equity_bhavcopy (fun _ => .ok ⟨"text/html", [0], [9]⟩)
      (fun b => [("x.csv", b)]) id ⟨2024, 8, 5⟩ "out" []).1 = false ∧
    fsGet (Nse.download_nse_equity_bhavcopy (fun _ => .ok ⟨"text/html", [0], [9]⟩)
      (fun b => [("x.csv", b)]) id ⟨2024, 8, 5⟩ "out" []).2
      (withSuffixCsvGz (Nse.finalPath "out" ⟨2024, 8, 5⟩)) = none :=
  c3_html_response_writes_nothing (fun _ => .ok ⟨"text/html", [0], [9]⟩)
    (fun b => [("x.csv", b)]) id ⟨2024, 8, 5⟩ "out" [] ⟨"text/html", [0], [9]⟩
    rfl (by decide) rfl

/-- C5: `get_or_set_cookies` loads the persisted cookies into the session
with no network call when the cookie file exists, and otherwise performs
exactly one bootstrap GET of the NSE homepage, persists the captured
cookies to the file, and loads them into the session (the third component
is the trace of URLs fetched). -/
theorem c5_get_or_set_cookies_spec (net : Nse.Net) (s : Nse.Session) (cookie_path : String)
    (fs : FS) :
    (∀ blob, fsGet fs cookie_path = some blob →
      Nse.get_or_set_cookies net s cookie_path fs = .ok (Nse.sessionUpdate s blob, fs, [])) ∧
    (∀ resp, fsGet fs cookie_path = none → net "https://www.nseindia.com" = .ok resp →
      Nse.get_or_set_cookies net s cookie_path fs =
        .ok (Nse.sessionUpdate s resp.respCookies, fsSet fs cookie_path resp.respCookies,
          ["https://www.nseindia.com"])) := by
  constructor
  · intro blob hb
    unfold Nse.get_or_set_cookies
    rw [hb]
  · intro resp hnone hresp
    unfold Nse.get_or_set_cookies
    rw [hnone, hresp]

/-- Witness for C5: with no persisted file the provider does one homepage
GET and persists; with the file present it does no network call. -/
theorem c5_get_or_set_cookies_witness :
    Nse.get_or_set_cookies (fun _ => .ok ⟨"text/csv", [1], [9]⟩) ⟨[]⟩ Nse.cookiePath
      [(Nse.cookiePath, [4])] = .ok (Nse.sessionUpdate ⟨[]⟩ [4], [(Nse.cookiePath, [4])], []) ∧
    Nse.get_or_set_cookies (fun _ => .ok ⟨"text/csv", [1], [9]⟩) ⟨[]⟩ Nse.cookiePath [] =
      .ok (Nse.sessionUpdate ⟨[]⟩ [9], fsSet [] Nse.cookiePath [9],
        ["https://www.nseindia.com"]) :=
  ⟨(c5_get_or_set_cookies_spec (fun _ => .ok ⟨"text/csv", [1], [9]⟩) ⟨[]⟩ Nse.cookiePath
      [(Nse.cookiePath, [4])]).1 [4] (by decide),
   (c5_get_or_set_cookies_spec (fun _ => .ok ⟨"text/csv", [1], [9]⟩) ⟨[]⟩ Nse.cookiePath
      []).2 ⟨"text/csv", [1], [9]⟩ (by decide) rfl⟩

/-- NSE network oracle in which every GET succeeds with a non-HTML
response of body `[1, 2]` carrying cookies `[9]`. -/
def netOk : Nse.Net := fun _ => .ok ⟨"zip", [1, 2], [9]⟩

/-- Archive codec in which every zip holds exactly one entry named
`extracted.csv` with the archive bytes as content. -/
def unzipOne : Bytes → List (String × Bytes) := fun b => [("extracted.csv", b)]

theorem netOk_pipeline_ok (dt : Date) (output_dir : String) (fs : FS)
    (hne : output_dir ++ "/" ++ "extracted.csv" ≠ output_dir ++ "/" ++ Nse.zipFilename dt) :
    okB (Nse.download_nse_equity_bhavcopy netOk unzipOne id dt output_dir fs).1 = true := by
  have hct : containsTextHtml "zip" = false := by decide
  unfold Nse.download_nse_equity_bhavcopy Nse.get_or_set_cookies Nse.download_file
    Nse.extract_file
  cases hc : fsGet fs Nse.cookiePath with
  | some blob => simp [hc, netOk, unzipOne, hct, okB, hne]
  | none => simp [hc, netOk, unzipOne, hct, okB, hne]

/-- Spec-side definition (from the spec's words, for comparison): the
number of weekdays in the inclusive ordinal range. -/
def specWeekdayCount (startO endO : Nat) : Nat :=
  ((List.range' startO (endO + 1 - startO)).filter isWeekdayB).length

/-- C7: for a date range in which every day is a weekday and every
per-date download succeeds, both range drivers return a list whose length
equals the number of weekdays in the inclusive range. -/
theorem c7_all_success_length (http : Bse.Http) (net : Nse.Net)
    (unzip : Bytes → List (String × Bytes)) (comp comp2 : Bytes → Bytes)
    (startO endO : Nat) (output_dir : String) (fs fs2 : FS)
    (hwk : ∀ o, startO ≤ o → o ≤ endO → pyWeekday o < 5)
    (hbse : ∀ u, ∃ b, http u = .ok (200, b))
    (hnse : ∀ cur fs3, cur ≤ endO →
      okB (Nse.download_nse_equity_bhavcopy net unzip comp2 (ordinalToDate cur)
        output_dir fs3).1 = true) :
    (Bse.download_bhavcopy_range http comp startO endO output_dir fs).files.length =
      specWeekdayCount startO endO ∧
    (Nse.download_bhavcopy_range net unzip comp2 startO endO output_dir fs2).files.length =
      specWeekdayCount startO endO := by
  constructor
  · unfold Bse.download_bhavcopy_range specWeekdayCount
    have h := (bse_rangeLoop_spec http comp output_dir endO (endO + 1 - startO) startO fs
      rfl).2.2.2
    have hlen := congrArg List.length h
    rw [List.length_map] at hlen
    exact hlen
  · unfold Nse.download_bhavcopy_range specWeekdayCount
    have h1 := nse_rangeLoop_files_eq_calls net unzip comp2 output_dir endO hnse
      (endO + 1 - startO) startO fs2
    have h2 := (nse_rangeLoop_spec net unzip comp2 output_dir endO (endO + 1 - startO) startO
      fs2 rfl).2.1
    have hlen := congrArg List.length (h1.trans h2)
    rw [List.length_map] at hlen
    exact hlen

/-- Witness for C7: the range Monday 0001-01-01 .. Friday 0001-01-05
(ordinals 1..5), all-success oracles. -/
theorem c7_all_success_length_witness :
    (Bse.download_bhavcopy_range httpOk id 1 5 "out" []).files.length =
      specWeekdayCount 1 5 ∧
    (Nse.download_bhavcopy_range netOk unzipOne id 1 5 "out" []).files.length =
      specWeekdayCount 1 5 :=
  c7_all_success_length httpOk netOk unzipOne id id 1 5 "out" [] []
    (fun o h1 h2 => by unfold pyWeekday; omega)
    (fun _ => ⟨[1, 2, 3], rfl⟩)
    (fun cur fs3 hcur => netOk_pipeline_ok (ordinalToDate cur) "out" fs3 (by
      interval_cases cur <;> decide))

/-- C8: for any weekend date in the iterated range, neither range driver
invokes the per-date downloader for it (`calls`), both log a skip for it
(`skips`), and neither appends anything to the result list for it. -/
theorem c8_weekend_skipped (http : Bse.Http) (net : Nse.Net)
    (unzip : Bytes → List (String × Bytes)) (comp comp2 : Bytes → Bytes)
    (startO endO o : Nat) (output_dir : String) (fs fs2 : FS)
    (ho1 : startO ≤ o) (ho2 : o ≤ endO) (hwe : 5 ≤ pyWeekday o) :
    (o ∉ (Bse.download_bhavcopy_range http comp startO endO output_dir fs).calls ∧
     o ∈ (Bse.download_bhavcopy_range http comp startO endO output_dir fs).skips ∧
     o ∉ (Bse.download_bhavcopy_range http comp startO endO output_dir fs).files.map
       Prod.fst) ∧
    (o ∉ (Nse.download_bhavcopy_range net unzip comp2 startO endO output_dir fs2).calls ∧
     o ∈ (Nse.download_bhavcopy_range net unzip comp2 startO endO output_dir fs2).skips ∧
     o ∉ (Nse.download_bhavcopy_range net unzip comp2 startO endO output_dir fs2).files.map
       Prod.fst) := by
  have hwb : isWeekdayB o = false := by
    simp [isWeekdayB]
    omega
  have hmem : o ∈ List.range' startO (endO + 1 - startO) := by
    rw [List.mem_range'_1]
    omega
  obtain ⟨hb1, hb2, hb3, hb4⟩ := bse_rangeLoop_spec http comp output_dir endO
    (endO + 1 - startO) startO fs rfl
  obtain ⟨hn1, hn2, hn3⟩ := nse_rangeLoop_spec net unzip comp2 output_dir endO
    (endO + 1 - startO) startO fs2 rfl
  unfold Bse.download_bhavcopy_range Nse.download_bhavcopy_range
  refine ⟨⟨?_, ?_, ?_⟩, ?_, ?_, ?_⟩
  · rw [hb2]
    intro hmm
    have h2 := (List.mem_filter.mp hmm).2
    rw [hwb] at h2
    exact absurd h2 (by simp)
  · rw [hb3]
    exact List.mem_filter.mpr ⟨hmem, by simp [hwb]⟩
  · rw [hb4]
    intro hmm
    have h2 := (List.mem_filter.mp hmm).2
    rw [hwb] at h2
    exact absurd h2 (by simp)
  · rw [hn2]
    intro hmm
    have h2 := (List.mem_filter.mp hmm).2
    rw [hwb] at h2
    exact absurd h2 (by simp)
  · rw [hn3]
    exact List.mem_filter.mpr ⟨hmem, by simp [hwb]⟩
  · intro hmm
    have hcalls := nse_rangeLoop_files_sub_calls net unzip comp2 output_dir endO
      (endO + 1 - startO) startO fs2 o hmm
    rw [hn2] at hcalls
    have h2 := (List.mem_filter.mp hcalls).2
    rw [hwb] at h2
    exact absurd h2 (by simp)

/-- Witness for C8: the Saturday ordinal 6 inside the range 1..7. -/
theorem c8_weekend_skipped_witness :
    (6 ∉ (Bse.download_bhavcopy_range httpOk id 1 7 "out" []).calls ∧
     6 ∈ (Bse.download_bhavcopy_range httpOk id 1 7 "out" []).skips ∧
     6 ∉ (Bse.download_bhavcopy_range httpOk id 1 7 "out" []).files.map Prod.fst) ∧
    (6 ∉ (Nse.download_bhavcopy_range netOk unzipOne id 1 7 "out" []).calls ∧
     6 ∈ (Nse.download_bhavcopy_range netOk unzipOne id 1 7 "out" []).skips ∧
     6 ∉ (Nse.download_bhavcopy_range netOk unzipOne id 1 7 "out" []).files.map Prod.fst) :=
  c8_weekend_skipped httpOk netOk unzipOne id id 1 7 6 "out" [] []
    (by decide) (by decide) (by decide)

/-- C10: both range drivers iterate exactly the dates `startO .. endO`
inclusive, advancing by one day per iteration (the visited trace is the
contiguous ordinal range), and when the start is after the end they
perform zero iterations and return the empty list.  The drivers are total
Lean functions, so termination holds by construction. -/
theorem c10_range_driver_terminates (http : Bse.Http) (net : Nse.Net)
    (unzip : Bytes → List (String × Bytes)) (comp comp2 : Bytes → Bytes)
    (startO endO : Nat) (output_dir : String) (fs fs2 : FS) :
    (Bse.download_bhavcopy_range http comp startO endO output_dir fs).visited =
      List.range' startO (endO + 1 - startO) ∧
    (Nse.download_bhavcopy_range net unzip comp2 startO endO output_dir fs2).visited =
      List.range' startO (endO + 1 - startO) ∧
    (endO < startO →
      (Bse.download_bhavcopy_range http comp startO endO output_dir fs).visited = [] ∧
      (Bse.download_bhavcopy_range http comp startO endO output_dir fs).files = [] ∧
      (Nse.download_bhavcopy_range net unzip comp2 startO endO output_dir fs2).visited = [] ∧
      (Nse.download_bhavcopy_range net unzip comp2 startO endO output_dir fs2).files = []) := by
  obtain ⟨hb1, -, -, -⟩ := bse_rangeLoop_spec http comp output_dir endO
    (endO + 1 - startO) startO fs rfl
  obtain ⟨hn1, -, -⟩ := nse_rangeLoop_spec net unzip comp2 output_dir endO
    (endO + 1 - startO) startO fs2 rfl
  unfold Bse.download_bhavcopy_range Nse.download_bhavcopy_range
  refine ⟨hb1, hn1, fun hlt => ?_⟩
  have h0 : endO + 1 - startO = 0 := by omega
  rw [h0]
  simp [Bse.rangeLoop, Nse.rangeLoop]

/-- Witness for C10 at the empty range 3..1 (start after end). -/
theorem c10_range_driver_terminates_witness :
    (Bse.download_bhavcopy_range httpOk id 3 1 "out" []).visited =
      List.range' 3 (1 + 1 - 3) ∧
    (Nse.download_bhavcopy_range netOk unzipOne id 3 1 "out" []).visited =
      List.range' 3 (1 + 1 - 3) ∧
    ((Bse.download_bhavcopy_range httpOk id 3 1 "out" []).visited = [] ∧
     (Bse.download_bhavcopy_range httpOk id 3 1 "out" []).files = [] ∧
     (Nse.download_bhavcopy_range netOk unzipOne id 3 1 "out" []).visited = [] ∧
     (Nse.download_bhavcopy_range netOk unzipOne id 3 1 "out" []).files = []) := by
  have h := c10_range_driver_terminates httpOk netOk unzipOne id id 3 1 "out" [] []
  exact ⟨h.1, h.2.1, h.2.2 (by decide)⟩
